import Mathlib

/-!
Verification of the TradingAgents deliberation pipeline against its
natural-language specification.  The Python source is shallowly embedded:
ticker and message processing works on lists of Unicode code points
(`Str := List Nat`), report texts are Lean `String`s, the LLM and the data
vendors are opaque collaborators passed in as values or functions, and
each graph node becomes a pure function from the read snapshot of the
deliberation state (plus the collaborator outputs) to a partial update.
-/

namespace TradingAgents

/-- A Python string, modelled as the list of its Unicode code points. -/
abbrev Str := List Nat

/-- Whitespace recognised by Python `str.strip()` (ASCII range). -/
def isSpaceCh (c : Nat) : Bool :=
  decide (c = 32 ∨ c = 9 ∨ c = 10 ∨ c = 13 ∨ c = 11 ∨ c = 12)

/-- `str.lstrip()` with no argument: drop leading whitespace. -/
def pyLStrip (s : Str) : Str := s.dropWhile isSpaceCh

/-- `str.rstrip()` with no argument: drop trailing whitespace. -/
def pyRStrip (s : Str) : Str := (s.reverse.dropWhile isSpaceCh).reverse

/-- `str.strip()` with no argument. -/
def pyStrip (s : Str) : Str := pyRStrip (pyLStrip s)

/-- `str.upper()` on one character (ASCII range). -/
def upperCh (c : Nat) : Nat := if 97 ≤ c ∧ c ≤ 122 then c - 32 else c

/-- `str.upper()`. -/
def pyUpper (s : Str) : Str := s.map upperCh

/-- The regex class `\d` (ASCII digits). -/
def isDigitCh (c : Nat) : Bool := decide (48 ≤ c ∧ c ≤ 57)

/-- The regex class `[A-Z]` under `re.IGNORECASE` (ASCII letters). -/
def isAsciiLetterCh (c : Nat) : Bool :=
  decide ((65 ≤ c ∧ c ≤ 90) ∨ (97 ≤ c ∧ c ≤ 122))

/-- `re.match(r"^(\d+)", s).group(1)`: the maximal leading digit run. -/
def leadingDigits (s : Str) : Str := s.takeWhile isDigitCh

/-- `src/tradingagents/utils/stock_utils.py`: the `StockMarket` enum. -/
inductive StockMarket where
  | us
  | china
  | hk
  | unknown
deriving DecidableEq, Repr, Inhabited

/-- The string `.value` of a `StockMarket` member. -/
def StockMarket.value : StockMarket → String
  | .us => "us"
  | .china => "china"
  | .hk => "hk"
  | .unknown => "unknown"

/-- The uppercased suffixes admitted by `_CHINA_PATTERN`
(`^\d{6}(\.(SZ|SH|BJ|SS))?$`, `re.IGNORECASE`): nothing, `.SZ`, `.SH`,
`.BJ` or `.SS` (code points: `.` 46, `B` 66, `H` 72, `J` 74, `S` 83, `Z` 90). -/
def chinaSuffixes : List Str := [[], [46, 83, 90], [46, 83, 72], [46, 66, 74], [46, 83, 83]]

/-- `_CHINA_PATTERN.match s` as a predicate: six leading digits followed by an
optional `.SZ|.SH|.BJ|.SS` suffix, case-insensitively, anchored on both ends. -/
def chinaMatch (s : Str) : Bool :=
  decide ((s.take 6).length = 6 ∧ (∀ c ∈ s.take 6, isDigitCh c = true) ∧
    pyUpper (s.drop 6) ∈ chinaSuffixes)

/-- `_HK_PATTERN.match s` as a predicate (`^(\d{4,5})(\.HK)?$`, `re.IGNORECASE`):
a leading run of exactly four or five digits followed by an optional `.HK`,
case-insensitively, anchored on both ends (`.` 46, `H` 72, `K` 75). -/
def hkMatch (s : Str) : Bool :=
  decide (((leadingDigits s).length = 4 ∨ (leadingDigits s).length = 5) ∧
    (s.drop (leadingDigits s).length = [] ∨
      pyUpper (s.drop (leadingDigits s).length) = [46, 72, 75]))

/-- `_US_PATTERN.match s` as a predicate (`^[A-Z]{1,5}$`, `re.IGNORECASE`). -/
def usMatch (s : Str) : Bool :=
  decide (1 ≤ s.length ∧ s.length ≤ 5 ∧ ∀ c ∈ s, isAsciiLetterCh c = true)

/-- `StockUtils.identify_market`: strip the ticker, then first match wins —
China pattern, then the HK pattern (re-checking that the leading digit run has
length at most five and falling through otherwise, as the source does), then
the US pattern. -/
def identify_market (ticker : Str) : StockMarket :=
  if chinaMatch (pyStrip ticker) then StockMarket.china
  else if hkMatch (pyStrip ticker) ∧ (leadingDigits (pyStrip ticker)).length ≤ 5 then
    StockMarket.hk
  else if usMatch (pyStrip ticker) then StockMarket.us
  else StockMarket.unknown

/-- `stock_utils.MarketInfo` (a `TypedDict` in the source). -/
structure MarketInfo where
  market : String
  market_name : String
  currency_name : String
  currency_symbol : String
  data_source : String
  is_us : Bool
  is_china : Bool
  is_hk : Bool
deriving DecidableEq, Repr

/-- `StockUtils.get_market_info`. -/
def get_market_info (ticker : Str) : MarketInfo :=
  match identify_market ticker with
  | StockMarket.china =>
      { market := StockMarket.china.value, market_name := "China A-shares",
        currency_name := "CNY", currency_symbol := "¥", data_source := "akshare",
        is_us := false, is_china := true, is_hk := false }
  | StockMarket.hk =>
      { market := StockMarket.hk.value, market_name := "Hong Kong",
        currency_name := "HKD", currency_symbol := "HK$", data_source := "yfinance",
        is_us := false, is_china := false, is_hk := true }
  | StockMarket.us =>
      { market := StockMarket.us.value, market_name := "US",
        currency_name := "USD", currency_symbol := "$", data_source := "yfinance",
        is_us := true, is_china := false, is_hk := false }
  | StockMarket.unknown =>
      { market := StockMarket.unknown.value, market_name := "Unknown",
        currency_name := "USD", currency_symbol := "$", data_source := "yfinance",
        is_us := false, is_china := false, is_hk := false }

/-- `ticker.endswith(".HK")` (on an already-uppercased ticker, as in the source). -/
def endsWithHK (t : Str) : Bool := decide (t.drop (t.length - 3) = [46, 72, 75])

/-- `StockUtils.normalize_ticker`.  The ticker is stripped and uppercased; the
market defaults to `identify_market` of the result.  HK tickers that do not
already end in `.HK` become `<leading digits>.HK`; China tickers are cut to the
bare six-digit code (the source's `re.match(r"^(\d{6})", ticker).group(1)`,
whose match is guaranteed whenever the China classification fired); everything
else is returned stripped and uppercased. -/
def normalize_ticker (ticker : Str) (marketArg : Option StockMarket := none) : Str :=
  let t := pyUpper (pyStrip ticker)
  let market := marketArg.getD (identify_market t)
  match market with
  | StockMarket.hk => if endsWithHK t then t else leadingDigits t ++ [46, 72, 75]
  | StockMarket.china => t.take 6
  | _ => t

/-- `text.lstrip("\n")`: drop leading newlines (code point 10). -/
def lstripNl (s : Str) : Str := s.dropWhile (fun c => decide (c = 10))

/-- `text.rfind("\n", 0, limit)` restricted to the window `text[0:limit]`:
the index of the last newline in the window, if any.  `rfindAux` returns the
last index of a newline in a list. -/
def rfindAux : Str → Option Nat
  | [] => none
  | c :: cs =>
    match rfindAux cs with
    | some j => some (j + 1)
    | none => if c = 10 then some 0 else none

/-- `text.rfind("\n", 0, limit)`, as an `Option` (the source's `-1` is `none`). -/
def rfindNl (s : Str) (limit : Nat) : Option Nat := rfindAux (s.take limit)

/-- The `while text:` loop of `telegram_bot/bot.py:_split_message`, with an
explicit fuel argument standing for the number of loop iterations still
allowed; `none` means the fuel ran out before the loop finished. -/
def split_loop : Nat → Str → Nat → Option (List Str)
  | 0, _, _ => none
  | fuel + 1, text, limit =>
    if text.length = 0 then some []
    else if text.length ≤ limit then some [text]
    else
      let split_at := (rfindNl text limit).getD limit
      match split_loop fuel (lstripNl (text.drop split_at)) limit with
      | some rest => some (text.take split_at :: rest)
      | none => none

/-- `telegram_bot/bot.py:_split_message`.  The fuel `text.length + 1` bounds
the number of loop iterations; termination of the Python loop is exactly the
statement that this fuel is never exhausted. -/
def split_message (text : Str) (limit : Nat) : Option (List Str) :=
  if text.length ≤ limit then some [text]
  else split_loop (text.length + 1) text limit

/-- Which of the awaited calls inside `TradingBot.handle_message` raise, for
one invocation: the "Starting analysis..." `reply_text`, the pipeline run in
the executor, the report-chunk `reply_text`s, and the failure-notice
`reply_text` in the `except` block. -/
structure EffectOutcome where
  start_reply_raises : Bool
  run_raises : Bool
  report_reply_raises : Bool
  error_reply_raises : Bool
deriving DecidableEq, Repr

/-- The observable outcome of one `TradingBot.handle_message` invocation:
the `_running_analyses` keys afterwards, the replies sent (as tags, in
order), whether the pipeline run was started, and whether an exception
escaped the handler. -/
structure HandlerResult where
  running : List Nat
  replies : List String
  run_started : Bool
  raised : Bool
deriving DecidableEq, Repr

/-- `TradingBot.handle_message`, for a non-empty non-command text message.
`running` models the keys of `self._running_analyses`; `authorized` is
`self._is_authorized(user_id)`; `parse_ok` tells whether `_parse_request`
succeeded.  The handler runs on a single asyncio event loop, so the check
of the per-chat flag and the assignment setting it are not interleaved with
another invocation.  The flag is set before the "Starting analysis..."
reply is awaited, and the `try/finally` that releases it is entered only
after that reply succeeds; exceptions raised by the run or by the report
replies are caught, the failure notice is sent, and the `finally` block
releases the flag (even when the failure notice itself raises). -/
def handle_message (running : List Nat) (chat_id : Nat) (authorized parse_ok : Bool)
    (eff : EffectOutcome) : HandlerResult :=
  if authorized = false then
    { running := running, replies := ["unauthorized"], run_started := false, raised := false }
  else if parse_ok = false then
    { running := running, replies := ["parse_error"], run_started := false, raised := false }
  else if running.contains chat_id then
    { running := running, replies := ["already_running"], run_started := false, raised := false }
  else
    let running1 := chat_id :: running
    if eff.start_reply_raises then
      { running := running1, replies := [], run_started := false, raised := true }
    else if eff.run_raises then
      { running := running1.erase chat_id, replies := ["start", "error"],
        run_started := true, raised := eff.error_reply_raises }
    else if eff.report_reply_raises then
      { running := running1.erase chat_id, replies := ["start", "error"],
        run_started := true, raised := eff.error_reply_raises }
    else
      { running := running1.erase chat_id, replies := ["start", "report"],
        run_started := true, raised := false }

/-- A structured tool invocation requested by the reasoning layer; its payload
is opaque to the pipeline. -/
abbrev ToolCall := String

/-- One reasoning-layer response: text plus zero or more structured tool
invocations (`result.content` and `result.tool_calls` in the source). -/
structure LLMResult where
  content : String
  tool_calls : List ToolCall
deriving DecidableEq, Repr

/-- `InvestDebateState` from the agent-state model: the investment (bull/bear)
debate record threaded through the pipeline. -/
structure InvestDebateState where
  history : String := ""
  bull_history : String := ""
  bear_history : String := ""
  current_response : String := ""
  judge_decision : String := ""
  count : Nat := 0
deriving DecidableEq, Repr

/-- `RiskDebateState` from the agent-state model: the risk (risky/safe/neutral)
debate record threaded through the pipeline. -/
structure RiskDebateState where
  judge_decision : String := ""
  history : String := ""
  risky_history : String := ""
  safe_history : String := ""
  neutral_history : String := ""
  latest_speaker : String := ""
  current_risky_response : String := ""
  current_safe_response : String := ""
  current_neutral_response : String := ""
  count : Nat := 0
deriving DecidableEq, Repr

/-- The deliberation state threaded through the graph (`AgentState`). -/
structure AgentState where
  company_of_interest : String := ""
  trade_date : String := ""
  market_name : String := "US"
  currency : String := "$"
  market_report : String := ""
  sentiment_report : String := ""
  news_report : String := ""
  fundamentals_report : String := ""
  investment_plan : String := ""
  trader_investment_plan : String := ""
  final_trade_decision : String := ""
  investment_debate_state : InvestDebateState := {}
  risk_debate_state : RiskDebateState := {}
  messages : List LLMResult := []
deriving DecidableEq, Repr

/-- The partial update returned by one graph node: `none` means the node's
returned dict does not contain that key; `messages` are appended by the
graph's additive message reducer. -/
structure Update where
  messages : List LLMResult := []
  market_report : Option String := none
  sentiment_report : Option String := none
  news_report : Option String := none
  fundamentals_report : Option String := none
  investment_plan : Option String := none
  trader_investment_plan : Option String := none
  final_trade_decision : Option String := none
  investment_debate_state : Option InvestDebateState := none
  risk_debate_state : Option RiskDebateState := none
deriving DecidableEq, Repr

/-- Merge a node's partial update into the committed state: listed keys
overwrite, `messages` append, everything else is untouched. -/
def applyUpdate (s : AgentState) (u : Update) : AgentState :=
  { s with
    messages := s.messages ++ u.messages,
    market_report := u.market_report.getD s.market_report,
    sentiment_report := u.sentiment_report.getD s.sentiment_report,
    news_report := u.news_report.getD s.news_report,
    fundamentals_report := u.fundamentals_report.getD s.fundamentals_report,
    investment_plan := u.investment_plan.getD s.investment_plan,
    trader_investment_plan := u.trader_investment_plan.getD s.trader_investment_plan,
    final_trade_decision := u.final_trade_decision.getD s.final_trade_decision,
    investment_debate_state := u.investment_debate_state.getD s.investment_debate_state,
    risk_debate_state := u.risk_debate_state.getD s.risk_debate_state }

/-- `market_analyst_node` (`agents/analysts/market_analyst.py`): invoke the
LLM with the role prompt and tools (the response is the opaque `result`);
the report is the response text when there are no tool calls, else empty;
return the response message plus the `market_report` key. -/
def market_analyst_node (_s : AgentState) (result : LLMResult) : Update :=
  let report := if result.tool_calls.length = 0 then result.content else ""
  { messages := [result], market_report := some report }

/-- `social_media_analyst_node` (`agents/analysts/social_media_analyst.py`):
same shape as the market analyst, writing `sentiment_report`. -/
def social_media_analyst_node (_s : AgentState) (result : LLMResult) : Update :=
  let report := if result.tool_calls.length = 0 then result.content else ""
  { messages := [result], sentiment_report := some report }

/-- `news_analyst_node` (`agents/analysts/news_analyst.py`): same shape as the
market analyst, writing `news_report`. -/
def news_analyst_node (_s : AgentState) (result : LLMResult) : Update :=
  let report := if result.tool_calls.length = 0 then result.content else ""
  { messages := [result], news_report := some report }

/-- `fundamentals_analyst_node` (`agents/analysts/fundamentals_analyst.py`):
same shape as the market analyst, writing `fundamentals_report`. -/
def fundamentals_analyst_node (_s : AgentState) (result : LLMResult) : Update :=
  let report := if result.tool_calls.length = 0 then result.content else ""
  { messages := [result], fundamentals_report := some report }

/-- One record returned by `FinancialSituationMemory.get_memories`. -/
structure MemRec where
  matched_situation : String := ""
  recommendation : String := ""
  similarity_score : ℚ := 0
deriving DecidableEq, Repr, Inhabited

/-- What `risk_manager_node` observably does: the `(situation, n_matches)`
pair it queries the episodic memory with, the advisory text it folds from the
retrieved records, and the partial update it returns. -/
structure RiskManagerOutput where
  memory_query : String × Nat
  past_memory_str : String
  update : Update
deriving DecidableEq, Repr

/-- `risk_manager_node` (`agents/managers/risk_manager.py`): build the
situation string from the four analyst reports, query the episodic memory
(an opaque collaborator) for two matches, fold the retrieved recommendations
into the prompt's advisory text, and — with `response` the text returned by
the reasoning collaborator for the judge prompt — return a new risk debate
state that copies every history, current-response field and the count from
the input state, sets `latest_speaker` to `"Judge"` and `judge_decision` to
the response, together with `final_trade_decision`. -/
def risk_manager_node (memory : String → Nat → List MemRec) (s : AgentState)
    (response : String) : RiskManagerOutput :=
  let risk_debate_state := s.risk_debate_state
  let curr_situation :=
    s.market_report ++ "\n\n" ++ s.sentiment_report ++ "\n\n" ++
      s.news_report ++ "\n\n" ++ s.fundamentals_report
  let past_memories := memory curr_situation 2
  let past_memory_str := String.join (past_memories.map (fun r => r.recommendation ++ "\n\n"))
  let new_risk_debate_state : RiskDebateState :=
    { judge_decision := response,
      history := risk_debate_state.history,
      risky_history := risk_debate_state.risky_history,
      safe_history := risk_debate_state.safe_history,
      neutral_history := risk_debate_state.neutral_history,
      latest_speaker := "Judge",
      current_risky_response := risk_debate_state.current_risky_response,
      current_safe_response := risk_debate_state.current_safe_response,
      current_neutral_response := risk_debate_state.current_neutral_response,
      count := risk_debate_state.count }
  { memory_query := (curr_situation, 2),
    past_memory_str := past_memory_str,
    update := { risk_debate_state := some new_risk_debate_state,
                final_trade_decision := some response } }

/-- The parallel result lists of one `chromadb` collection query, as consumed
by `get_memories` (`results["documents"][0]`, the `"recommendation"` entries
of `results["metadatas"][0]`, and `results["distances"][0]`). -/
structure MemQueryResults where
  documents : List String
  recommendations : List String
  distances : List ℚ
deriving DecidableEq, Repr

/-- The stored collection of an episodic memory store: the inserted
(situation, recommendation) records. -/
abbrev Collection := List (String × String)

/-- The result-building loop of `FinancialSituationMemory.get_memories`
(`memory.py` lines 92–102): one record per matched document, with
`similarity_score = 1 - distance`. -/
def build_matched_results (results : MemQueryResults) : List MemRec :=
  (List.range results.documents.length).map (fun i =>
    { matched_situation := results.documents.getD i "",
      recommendation := results.recommendations.getD i "",
      similarity_score := 1 - results.distances.getD i 0 })

/-- `FinancialSituationMemory.get_memories`: embed the situation, run the
store's nearest-neighbour query (`query` is the opaque chromadb collaborator,
a read of the stored collection), and build the matched records.  The method
body performs no write to the collection, so the collection is returned
unchanged alongside the records. -/
def get_memories (query : Collection → String → Nat → MemQueryResults)
    (col : Collection) (current_situation : String) (n_matches : Nat) :
    List MemRec × Collection :=
  (build_matched_results (query col current_situation n_matches), col)

/-- Modelled from the spec: the bull researcher turn of the Investment Debate
Stage (its source file is not under `src/`); per §3 and §4.4 it updates only
the investment debate state and appends the turn it produced. -/
def bull_researcher_update (ids : InvestDebateState) (msg : LLMResult) : Update :=
  { messages := [msg], investment_debate_state := some ids }

/-- Modelled from the spec: the bear researcher turn of the Investment Debate
Stage (source not under `src/`); it updates only the investment debate state
and appends its turn. -/
def bear_researcher_update (ids : InvestDebateState) (msg : LLMResult) : Update :=
  { messages := [msg], investment_debate_state := some ids }

/-- Modelled from the spec: the Investment Debate judge (research manager,
source not under `src/`); per §4.4 it writes `judge_decision` inside the
investment debate state and `investment_plan`, and appends its turn. -/
def research_manager_update (ids : InvestDebateState) (plan : String)
    (msg : LLMResult) : Update :=
  { messages := [msg], investment_debate_state := some ids,
    investment_plan := some plan }

/-- Modelled from the spec: the Trading Plan Stage (trader, source not under
`src/`); per §4.5 it writes `trader_investment_plan` and appends its turn. -/
def trader_update (plan : String) (msg : LLMResult) : Update :=
  { messages := [msg], trader_investment_plan := some plan }

/-- Modelled from the spec: one risky-analyst turn of the Risk Debate Stage
(source not under `src/`); per §4.6 it updates only the risk debate state. -/
def risky_debator_update (rds : RiskDebateState) (msg : LLMResult) : Update :=
  { messages := [msg], risk_debate_state := some rds }

/-- Modelled from the spec: one safe-analyst turn of the Risk Debate Stage
(source not under `src/`). -/
def safe_debator_update (rds : RiskDebateState) (msg : LLMResult) : Update :=
  { messages := [msg], risk_debate_state := some rds }

/-- Modelled from the spec: one neutral-analyst turn of the Risk Debate Stage
(source not under `src/`). -/
def neutral_debator_update (rds : RiskDebateState) (msg : LLMResult) : Update :=
  { messages := [msg], risk_debate_state := some rds }

/-- Modelled from the spec: the tool-execution step between analyst
re-invocations (source not under `src/`); per §4.3 the controller appends the
retrieval results to the conversation and touches nothing else. -/
def tool_node_update (msgs : List LLMResult) : Update :=
  { messages := msgs }

/-- Modelled from the spec: the Pipeline Controller's possible stage
invocations (the controller's source is not under `src/`).  Per §4.3/§4.7 an
analyst stage is (re-)invoked only while its own report is still empty — once
the stage finished (non-empty report, no tool calls) the controller moves on
and never invokes it again; the spec-modelled updates above cover the stages
whose sources are not under `src/`, and the analyst and risk-judge updates are
the embedded source nodes. -/
inductive Step : AgentState → AgentState → Prop where
  | market (s : AgentState) (r : LLMResult) (h : s.market_report = "") :
      Step s (applyUpdate s (market_analyst_node s r))
  | social (s : AgentState) (r : LLMResult) (h : s.sentiment_report = "") :
      Step s (applyUpdate s (social_media_analyst_node s r))
  | news (s : AgentState) (r : LLMResult) (h : s.news_report = "") :
      Step s (applyUpdate s (news_analyst_node s r))
  | fundamentals (s : AgentState) (r : LLMResult) (h : s.fundamentals_report = "") :
      Step s (applyUpdate s (fundamentals_analyst_node s r))
  | bull (s : AgentState) (ids : InvestDebateState) (m : LLMResult) :
      Step s (applyUpdate s (bull_researcher_update ids m))
  | bear (s : AgentState) (ids : InvestDebateState) (m : LLMResult) :
      Step s (applyUpdate s (bear_researcher_update ids m))
  | invest_judge (s : AgentState) (ids : InvestDebateState) (plan : String) (m : LLMResult) :
      Step s (applyUpdate s (research_manager_update ids plan m))
  | trader (s : AgentState) (plan : String) (m : LLMResult) :
      Step s (applyUpdate s (trader_update plan m))
  | risky (s : AgentState) (rds : RiskDebateState) (m : LLMResult) :
      Step s (applyUpdate s (risky_debator_update rds m))
  | safe (s : AgentState) (rds : RiskDebateState) (m : LLMResult) :
      Step s (applyUpdate s (safe_debator_update rds m))
  | neutral (s : AgentState) (rds : RiskDebateState) (m : LLMResult) :
      Step s (applyUpdate s (neutral_debator_update rds m))
  | tools (s : AgentState) (msgs : List LLMResult) :
      Step s (applyUpdate s (tool_node_update msgs))
  | risk_judge (s : AgentState) (memory : String → Nat → List MemRec) (resp : String) :
      Step s (applyUpdate s (risk_manager_node memory s resp).update)

/-- An update that leaves all four analyst report fields untouched. -/
def touches_no_reports (u : Update) : Prop :=
  u.market_report = none ∧ u.sentiment_report = none ∧
    u.news_report = none ∧ u.fundamentals_report = none

/-- An update that writes `market_report` and no other report field. -/
def touches_only_market (u : Update) : Prop :=
  u.market_report ≠ none ∧ u.sentiment_report = none ∧
    u.news_report = none ∧ u.fundamentals_report = none

/-- An update that writes `sentiment_report` and no other report field. -/
def touches_only_sentiment (u : Update) : Prop :=
  u.market_report = none ∧ u.sentiment_report ≠ none ∧
    u.news_report = none ∧ u.fundamentals_report = none

/-- An update that writes `news_report` and no other report field. -/
def touches_only_news (u : Update) : Prop :=
  u.market_report = none ∧ u.sentiment_report = none ∧
    u.news_report ≠ none ∧ u.fundamentals_report = none

/-- An update that writes `fundamentals_report` and no other report field. -/
def touches_only_fundamentals (u : Update) : Prop :=
  u.market_report = none ∧ u.sentiment_report = none ∧
    u.news_report = none ∧ u.fundamentals_report ≠ none

/-- The contract of §4.3 for one analyst invocation: either no report text and
at least one retrieval request, or report text and no retrieval request. -/
def analyst_dichotomy (report : String) (calls : List ToolCall) : Prop :=
  (report = "" ∧ calls ≠ []) ∨ (report ≠ "" ∧ calls = [])

/-- A concrete deliberation state used to instantiate proved theorems. -/
def exState : AgentState :=
  { company_of_interest := "NVDA", trade_date := "2024-05-10",
    market_report := "mkt report" }

/-- A concrete investment debate state for instantiations. -/
def exIds : InvestDebateState := { history := "bull said hi", count := 1 }

/-- A concrete conversation turn for instantiations. -/
def exMsg : LLMResult := { content := "a turn", tool_calls := [] }

/-! ### Generic helper lemmas about the character-list model -/

theorem dropWhile_len_le (p : Nat → Bool) (l : Str) : (l.dropWhile p).length ≤ l.length :=
  (List.dropWhile_sublist p).length_le

theorem dropWhile_idem (p : Nat → Bool) (l : Str) :
    (l.dropWhile p).dropWhile p = l.dropWhile p := by
  induction l with
  | nil => rfl
  | cons a l ih =>
    by_cases h : p a = true
    · simp [List.dropWhile_cons, h, ih]
    · simp [List.dropWhile_cons, h]

theorem head_false_of_dropWhile_fixed {p : Nat → Bool} {a : Nat} {l : Str}
    (h : (a :: l).dropWhile p = a :: l) : p a = false := by
  by_contra hb
  rw [Bool.not_eq_false] at hb
  rw [List.dropWhile_cons, if_pos hb] at h
  have hle := dropWhile_len_le p l
  rw [h] at hle
  simp at hle

theorem dropWhile_map_comm (f : Nat → Nat) (p : Nat → Bool) (l : Str) :
    (l.map f).dropWhile p = (l.dropWhile (fun c => p (f c))).map f := by
  induction l with
  | nil => rfl
  | cons a l ih =>
    by_cases h : p (f a) = true
    · simp [List.dropWhile_cons, h, ih]
    · simp [List.dropWhile_cons, h]

theorem map_eq_self_of_fixed {f : Nat → Nat} {l : Str} (h : ∀ c ∈ l, f c = c) :
    l.map f = l :=
  (List.map_congr_left h).trans (List.map_id l)

theorem isSpaceCh_upperCh (c : Nat) : isSpaceCh (upperCh c) = isSpaceCh c := by
  simp only [upperCh, isSpaceCh]
  split_ifs with h
  · simp only [decide_eq_decide]
    constructor <;> intro h2 <;> omega
  · rfl

theorem upperCh_idem (c : Nat) : upperCh (upperCh c) = upperCh c := by
  simp only [upperCh]
  split_ifs with h1 h2 <;> omega

theorem upperCh_of_digit {c : Nat} (h : isDigitCh c = true) : upperCh c = c := by
  simp only [isDigitCh, decide_eq_true_eq] at h
  simp only [upperCh]
  rw [if_neg (by omega)]

theorem isSpaceCh_of_digit {c : Nat} (h : isDigitCh c = true) : isSpaceCh c = false := by
  simp only [isDigitCh, decide_eq_true_eq] at h
  simp only [isSpaceCh, decide_eq_false_iff_not]
  omega

theorem pyLStrip_pyLStrip (s : Str) : pyLStrip (pyLStrip s) = pyLStrip s :=
  dropWhile_idem _ _

theorem pyRStrip_pyRStrip (s : Str) : pyRStrip (pyRStrip s) = pyRStrip s := by
  unfold pyRStrip
  rw [List.reverse_reverse, dropWhile_idem]

theorem pyLStrip_pyRStrip (s : Str) (h : pyLStrip s = s) :
    pyLStrip (pyRStrip s) = pyRStrip s := by
  cases s with
  | nil => rfl
  | cons a l =>
    have ha : isSpaceCh a = false := head_false_of_dropWhile_fixed h
    unfold pyRStrip
    rw [List.reverse_cons, List.dropWhile_append]
    by_cases he : (List.dropWhile isSpaceCh l.reverse).isEmpty = true
    · rw [if_pos he]
      simp [pyLStrip, List.dropWhile_cons, ha]
    · rw [if_neg he, List.reverse_append]
      simp [pyLStrip, List.dropWhile_cons, ha]

theorem pyStrip_idem (s : Str) : pyStrip (pyStrip s) = pyStrip s := by
  unfold pyStrip
  rw [pyLStrip_pyRStrip _ (pyLStrip_pyLStrip s), pyRStrip_pyRStrip]

theorem pyLStrip_pyUpper (s : Str) : pyLStrip (pyUpper s) = pyUpper (pyLStrip s) := by
  unfold pyLStrip pyUpper
  rw [dropWhile_map_comm]
  simp only [isSpaceCh_upperCh]

theorem pyRStrip_pyUpper (s : Str) : pyRStrip (pyUpper s) = pyUpper (pyRStrip s) := by
  unfold pyRStrip pyUpper
  rw [← List.map_reverse, dropWhile_map_comm, ← List.map_reverse]
  simp only [isSpaceCh_upperCh]

theorem pyStrip_pyUpper (s : Str) : pyStrip (pyUpper s) = pyUpper (pyStrip s) := by
  unfold pyStrip
  rw [pyLStrip_pyUpper, pyRStrip_pyUpper]

theorem pyUpper_idem (s : Str) : pyUpper (pyUpper s) = pyUpper s := by
  unfold pyUpper
  rw [List.map_map]
  exact List.map_congr_left (fun c _ => upperCh_idem c)

theorem pyStrip_of_no_space {s : Str} (h : ∀ c ∈ s, isSpaceCh c = false) :
    pyStrip s = s := by
  have hl : pyLStrip s = s := by
    cases s with
    | nil => rfl
    | cons a l => simp [pyLStrip, List.dropWhile_cons, h a (by simp)]
  have hr : pyRStrip s = s := by
    unfold pyRStrip
    have hrev : s.reverse.dropWhile isSpaceCh = s.reverse := by
      cases hx : s.reverse with
      | nil => rfl
      | cons a l =>
        have ha : a ∈ s := by
          rw [← List.mem_reverse, hx]
          simp
        simp [List.dropWhile_cons, h a ha]
    rw [hrev, List.reverse_reverse]
  unfold pyStrip
  rw [hl, hr]

theorem length_takeWhile_ge {p : Nat → Bool} :
    ∀ (s : Str) (n : Nat), (s.take n).length = n → (∀ c ∈ s.take n, p c = true) →
      n ≤ (s.takeWhile p).length := by
  intro s
  induction s with
  | nil =>
    intro n h _
    simp at h
    omega
  | cons a l ih =>
    intro n h hall
    cases n with
    | zero => omega
    | succ m =>
      simp only [List.take_succ_cons] at h hall
      have ha : p a = true := hall a (by simp)
      have hm : (l.take m).length = m := by simpa using h
      have hrec := ih m hm (fun c hc => hall c (by simp [hc]))
      simp [List.takeWhile_cons, ha]
      omega

theorem drop_length_takeWhile (p : Nat → Bool) (l : Str) :
    l.drop (l.takeWhile p).length = l.dropWhile p := by
  calc l.drop (l.takeWhile p).length
      = (l.takeWhile p ++ l.dropWhile p).drop (l.takeWhile p).length := by
        rw [List.takeWhile_append_dropWhile]
    _ = l.dropWhile p := List.drop_left _ _

theorem takeWhile_append_of {p : Nat → Bool} (x : Nat) (rest : Str) (hx : p x = false) :
    ∀ (d : Str), (∀ c ∈ d, p c = true) → (d ++ x :: rest).takeWhile p = d := by
  intro d
  induction d with
  | nil =>
    intro _
    simp [List.takeWhile_cons, hx]
  | cons a l ih =>
    intro hall
    have ha : p a = true := hall a (by simp)
    simp [List.takeWhile_cons, ha, ih (fun c hc => hall c (by simp [hc]))]

/-! ### Facts about the market classifier -/

theorem chinaMatch_iff {s : Str} : chinaMatch s = true ↔
    ((s.take 6).length = 6 ∧ (∀ c ∈ s.take 6, isDigitCh c = true) ∧
      pyUpper (s.drop 6) ∈ chinaSuffixes) := by
  simp [chinaMatch]

theorem hkMatch_iff {s : Str} : hkMatch s = true ↔
    (((leadingDigits s).length = 4 ∨ (leadingDigits s).length = 5) ∧
      (s.drop (leadingDigits s).length = [] ∨
        pyUpper (s.drop (leadingDigits s).length) = [46, 72, 75])) := by
  simp [hkMatch]

theorem china_imp_six_digits {s : Str} (h : chinaMatch s = true) :
    6 ≤ (leadingDigits s).length := by
  rw [chinaMatch_iff] at h
  exact length_takeWhile_ge s 6 h.1 h.2.1

theorem hk_imp_le_five {s : Str} (h : hkMatch s = true) :
    (leadingDigits s).length ≤ 5 := by
  rw [hkMatch_iff] at h
  rcases h.1 with h4 | h5 <;> omega

theorem china_false_of_hk {s : Str} (h : hkMatch s = true) : chinaMatch s = false := by
  by_contra hb
  rw [Bool.not_eq_false] at hb
  have h6 := china_imp_six_digits hb
  have h5 := hk_imp_le_five h
  omega

theorem identify_market_eq_china_of {s : Str} (h : chinaMatch (pyStrip s) = true) :
    identify_market s = StockMarket.china := by
  unfold identify_market
  rw [if_pos h]

theorem identify_market_eq_hk_of {s : Str} (h : hkMatch (pyStrip s) = true) :
    identify_market s = StockMarket.hk := by
  have hc : ¬ (chinaMatch (pyStrip s) = true) := by
    simp [china_false_of_hk h]
  unfold identify_market
  rw [if_neg hc, if_pos ⟨h, hk_imp_le_five h⟩]

/-- C3: for every ticker string matching `^\d{4,5}(\.HK)?$` after trimming
surrounding whitespace, case-insensitively, the market classifier returns
Hong Kong and the market info carries currency symbol `HK$`; and no ticker
whose trimmed form is a six-digit numeric ever classifies as Hong Kong
(six digits hit the China rule, which is checked first). -/
theorem hk_classification (t u : Str) (ht : hkMatch (pyStrip t) = true)
    (hu_len : (pyStrip u).length = 6) (hu_dig : ∀ c ∈ pyStrip u, isDigitCh c = true) :
    identify_market t = StockMarket.hk ∧
    (get_market_info t).currency_symbol = "HK$" ∧
    identify_market u ≠ StockMarket.hk := by
  have h1 := identify_market_eq_hk_of ht
  have htake : (pyStrip u).take 6 = pyStrip u := by
    rw [← hu_len, List.take_length]
  have hcu : chinaMatch (pyStrip u) = true := by
    rw [chinaMatch_iff]
    refine ⟨by rw [htake, hu_len], fun c hc => hu_dig c (htake ▸ hc), ?_⟩
    have hdrop : (pyStrip u).drop 6 = [] := by
      rw [← hu_len, List.drop_length]
    rw [hdrop]
    simp [pyUpper, chinaSuffixes]
  have h2 := identify_market_eq_china_of hcu
  refine ⟨h1, by simp [get_market_info, h1], by rw [h2]; simp⟩

/-- Witness for C3, at the concrete tickers `"0700.hk"` and `"600519"`. -/
theorem hk_classification_witness :
    hkMatch (pyStrip [48, 55, 48, 48, 46, 104, 107]) = true ∧
    (pyStrip [54, 48, 48, 53, 49, 57]).length = 6 ∧
    (identify_market [48, 55, 48, 48, 46, 104, 107] = StockMarket.hk ∧
      (get_market_info [48, 55, 48, 48, 46, 104, 107]).currency_symbol = "HK$" ∧
      identify_market [54, 48, 48, 53, 49, 57] ≠ StockMarket.hk) :=
  ⟨by decide, by decide,
    hk_classification [48, 55, 48, 48, 46, 104, 107] [54, 48, 48, 53, 49, 57]
      (by decide) (by decide) (by decide)⟩

/-- C4: for every ticker string matching `^\d{6}(\.(SZ|SH|BJ|SS))?$` after
trimming surrounding whitespace, case-insensitively, the market classifier
returns China A-shares and the market info carries currency symbol `¥` and
currency name `CNY`. -/
theorem china_classification (t : Str) (h : chinaMatch (pyStrip t) = true) :
    identify_market t = StockMarket.china ∧
    (get_market_info t).currency_symbol = "¥" ∧
    (get_market_info t).currency_name = "CNY" := by
  have h1 := identify_market_eq_china_of h
  exact ⟨h1, by simp [get_market_info, h1], by simp [get_market_info, h1]⟩

/-- Witness for C4, at the concrete ticker `"600519.ss"` (lower-case suffix). -/
theorem china_classification_witness :
    chinaMatch (pyStrip [54, 48, 48, 53, 49, 57, 46, 115, 115]) = true ∧
    (identify_market [54, 48, 48, 53, 49, 57, 46, 115, 115] = StockMarket.china ∧
      (get_market_info [54, 48, 48, 53, 49, 57, 46, 115, 115]).currency_symbol = "¥" ∧
      (get_market_info [54, 48, 48, 53, 49, 57, 46, 115, 115]).currency_name = "CNY") :=
  ⟨by decide, china_classification [54, 48, 48, 53, 49, 57, 46, 115, 115] (by decide)⟩

/-! ### Facts about `normalize_ticker` -/

theorem normalize_ticker_def (t0 : Str) :
    normalize_ticker t0 =
      match identify_market (pyUpper (pyStrip t0)) with
      | StockMarket.hk =>
          if endsWithHK (pyUpper (pyStrip t0)) then pyUpper (pyStrip t0)
          else leadingDigits (pyUpper (pyStrip t0)) ++ [46, 72, 75]
      | StockMarket.china => (pyUpper (pyStrip t0)).take 6
      | _ => pyUpper (pyStrip t0) := rfl

theorem normalize_ticker_fixed_input {v : Str} (hs : pyStrip v = v) (hu : pyUpper v = v) :
    normalize_ticker v =
      match identify_market v with
      | StockMarket.hk => if endsWithHK v then v else leadingDigits v ++ [46, 72, 75]
      | StockMarket.china => v.take 6
      | _ => v := by
  rw [normalize_ticker_def v, hs, hu]

theorem chinaMatch_of_identify_china {s : Str} (h : identify_market s = StockMarket.china) :
    chinaMatch (pyStrip s) = true := by
  by_contra hb
  rw [Bool.not_eq_true] at hb
  unfold identify_market at h
  rw [hb] at h
  simp only [Bool.false_eq_true, if_false] at h
  split_ifs at h <;> exact absurd h (by decide)

theorem hkMatch_of_identify_hk {s : Str} (h : identify_market s = StockMarket.hk) :
    hkMatch (pyStrip s) = true ∧ chinaMatch (pyStrip s) = false := by
  unfold identify_market at h
  by_cases hc : chinaMatch (pyStrip s) = true
  · rw [if_pos hc] at h
    exact absurd h (by decide)
  · rw [if_neg hc] at h
    rw [Bool.not_eq_true] at hc
    by_cases hh : hkMatch (pyStrip s) = true ∧ (leadingDigits (pyStrip s)).length ≤ 5
    · exact ⟨hh.1, hc⟩
    · rw [if_neg hh] at h
      by_cases hu2 : usMatch (pyStrip s) = true
      · rw [if_pos hu2] at h
        exact absurd h (by decide)
      · rw [if_neg hu2] at h
        exact absurd h (by decide)

/-- C9: `normalize_ticker` with the market argument left unspecified is
idempotent — normalizing an already-normalized ticker changes nothing: HK
tickers gain the `.HK` suffix only once, China tickers stay bare six-digit
codes, and all other tickers stay stripped and uppercased. -/
theorem normalize_ticker_idempotent (t0 : Str) :
    normalize_ticker (normalize_ticker t0) = normalize_ticker t0 := by
  have hs0 : pyStrip (pyUpper (pyStrip t0)) = pyUpper (pyStrip t0) := by
    rw [pyStrip_pyUpper, pyStrip_idem]
  have hu0 : pyUpper (pyUpper (pyStrip t0)) = pyUpper (pyStrip t0) := pyUpper_idem _
  cases hm : identify_market (pyUpper (pyStrip t0)) with
  | us =>
    have h1 : normalize_ticker t0 = pyUpper (pyStrip t0) := by
      rw [normalize_ticker_def t0, hm]
    rw [h1, normalize_ticker_fixed_input hs0 hu0, hm]
  | unknown =>
    have h1 : normalize_ticker t0 = pyUpper (pyStrip t0) := by
      rw [normalize_ticker_def t0, hm]
    rw [h1, normalize_ticker_fixed_input hs0 hu0, hm]
  | china =>
    have h1 : normalize_ticker t0 = (pyUpper (pyStrip t0)).take 6 := by
      rw [normalize_ticker_def t0, hm]
    have hcm : chinaMatch (pyUpper (pyStrip t0)) = true := by
      have hx := chinaMatch_of_identify_china hm
      rwa [hs0] at hx
    rw [chinaMatch_iff] at hcm
    obtain ⟨hlen6, hdig6, _⟩ := hcm
    have hsn : pyStrip ((pyUpper (pyStrip t0)).take 6) = (pyUpper (pyStrip t0)).take 6 :=
      pyStrip_of_no_space (fun c hc => isSpaceCh_of_digit (hdig6 c hc))
    have hun : pyUpper ((pyUpper (pyStrip t0)).take 6) = (pyUpper (pyStrip t0)).take 6 :=
      map_eq_self_of_fixed (fun c hc => upperCh_of_digit (hdig6 c hc))
    have htaken : ((pyUpper (pyStrip t0)).take 6).take 6 = (pyUpper (pyStrip t0)).take 6 := by
      simp [List.take_take]
    have hdropn : ((pyUpper (pyStrip t0)).take 6).drop 6 = [] := by
      have hx := List.drop_length ((pyUpper (pyStrip t0)).take 6)
      rwa [hlen6] at hx
    have hcn : chinaMatch ((pyUpper (pyStrip t0)).take 6) = true := by
      rw [chinaMatch_iff]
      refine ⟨by rw [htaken]; exact hlen6, fun c hc => hdig6 c (htaken ▸ hc), ?_⟩
      rw [hdropn]
      simp [pyUpper, chinaSuffixes]
    have hidn : identify_market ((pyUpper (pyStrip t0)).take 6) = StockMarket.china := by
      apply identify_market_eq_china_of
      rwa [hsn]
    rw [h1, normalize_ticker_fixed_input hsn hun, hidn]
    exact htaken
  | hk =>
    have hhk0 : hkMatch (pyUpper (pyStrip t0)) = true := by
      have hx := (hkMatch_of_identify_hk hm).1
      rwa [hs0] at hx
    have h1 : normalize_ticker t0 =
        if endsWithHK (pyUpper (pyStrip t0)) then pyUpper (pyStrip t0)
        else leadingDigits (pyUpper (pyStrip t0)) ++ [46, 72, 75] := by
      rw [normalize_ticker_def t0, hm]
    by_cases he : endsWithHK (pyUpper (pyStrip t0)) = true
    · rw [h1, if_pos he, normalize_ticker_fixed_input hs0 hu0, hm, if_pos he]
    · rw [h1, if_neg he]
      rw [hkMatch_iff] at hhk0
      obtain ⟨hdlen, _⟩ := hhk0
      have hdig : ∀ c ∈ leadingDigits (pyUpper (pyStrip t0)), isDigitCh c = true :=
        fun c hc => List.mem_takeWhile_imp hc
      have hnospace :
          ∀ c ∈ leadingDigits (pyUpper (pyStrip t0)) ++ [46, 72, 75], isSpaceCh c = false := by
        intro c hc
        rcases List.mem_append.mp hc with hcc | hcc
        · exact isSpaceCh_of_digit (hdig c hcc)
        · simp at hcc
          rcases hcc with rfl | rfl | rfl <;> rfl
      have hupfix :
          ∀ c ∈ leadingDigits (pyUpper (pyStrip t0)) ++ [46, 72, 75], upperCh c = c := by
        intro c hc
        rcases List.mem_append.mp hc with hcc | hcc
        · exact upperCh_of_digit (hdig c hcc)
        · simp at hcc
          rcases hcc with rfl | rfl | rfl <;> rfl
      have hsn : pyStrip (leadingDigits (pyUpper (pyStrip t0)) ++ [46, 72, 75]) =
          leadingDigits (pyUpper (pyStrip t0)) ++ [46, 72, 75] :=
        pyStrip_of_no_space hnospace
      have hun : pyUpper (leadingDigits (pyUpper (pyStrip t0)) ++ [46, 72, 75]) =
          leadingDigits (pyUpper (pyStrip t0)) ++ [46, 72, 75] :=
        map_eq_self_of_fixed hupfix
      have hld : leadingDigits (leadingDigits (pyUpper (pyStrip t0)) ++ [46, 72, 75]) =
          leadingDigits (pyUpper (pyStrip t0)) :=
        takeWhile_append_of 46 [72, 75] (by rfl) (leadingDigits (pyUpper (pyStrip t0))) hdig
      have hdropn : (leadingDigits (pyUpper (pyStrip t0)) ++ [46, 72, 75]).drop
          (leadingDigits (pyUpper (pyStrip t0))).length = [46, 72, 75] :=
        List.drop_left _ _
      have hhkn : hkMatch (leadingDigits (pyUpper (pyStrip t0)) ++ [46, 72, 75]) = true := by
        rw [hkMatch_iff, hld, hdropn]
        exact ⟨hdlen, Or.inr rfl⟩
      have hchn : chinaMatch (leadingDigits (pyUpper (pyStrip t0)) ++ [46, 72, 75]) = false := by
        by_contra hb
        rw [Bool.not_eq_false] at hb
        rw [chinaMatch_iff] at hb
        obtain ⟨_, hd6, _⟩ := hb
        have h6d : (6 : Nat) - (leadingDigits (pyUpper (pyStrip t0))).length = 2 ∨
            (6 : Nat) - (leadingDigits (pyUpper (pyStrip t0))).length = 1 := by
          rcases hdlen with hx | hx <;> omega
        have h46 : (46 : Nat) ∈ (leadingDigits (pyUpper (pyStrip t0)) ++ [46, 72, 75]).take 6 := by
          rw [List.take_append_eq_append_take]
          apply List.mem_append.mpr
          right
          rcases h6d with hx | hx <;> rw [hx] <;> decide
        exact absurd (hd6 46 h46) (by decide)
      have hidn : identify_market (leadingDigits (pyUpper (pyStrip t0)) ++ [46, 72, 75]) =
          StockMarket.hk := by
        apply identify_market_eq_hk_of
        rwa [hsn]
      have hend : endsWithHK (leadingDigits (pyUpper (pyStrip t0)) ++ [46, 72, 75]) = true := by
        have hlenn : (leadingDigits (pyUpper (pyStrip t0)) ++ [46, 72, 75]).length =
            (leadingDigits (pyUpper (pyStrip t0))).length + 3 := by
          simp
        simp only [endsWithHK, hlenn, Nat.add_sub_cancel]
        rw [hdropn]
        decide
      rw [normalize_ticker_fixed_input hsn hun, hidn, if_pos hend]

/-! ### Facts about the message splitter -/

theorem rfindAux_lt_length {l : Str} {i : Nat} (h : rfindAux l = some i) : i < l.length := by
  induction l generalizing i with
  | nil => simp [rfindAux] at h
  | cons c cs ih =>
    simp only [rfindAux] at h
    cases hx : rfindAux cs with
    | some j =>
      rw [hx] at h
      simp only [Option.some.injEq] at h
      have := ih hx
      simp only [List.length_cons]
      omega
    | none =>
      rw [hx] at h
      by_cases hc : c = 10
      · rw [if_pos hc] at h
        simp only [Option.some.injEq] at h
        simp only [List.length_cons]
        omega
      · rw [if_neg hc] at h
        simp at h

theorem rfindAux_zero {l : Str} (h : rfindAux l = some 0) : ∃ rest, l = 10 :: rest := by
  cases l with
  | nil => simp [rfindAux] at h
  | cons c cs =>
    simp only [rfindAux] at h
    cases hx : rfindAux cs with
    | some j =>
      rw [hx] at h
      simp at h
    | none =>
      rw [hx] at h
      by_cases hc : c = 10
      · exact ⟨cs, by rw [hc]⟩
      · rw [if_neg hc] at h
        simp at h

theorem length_lstripNl_le (s : Str) : (lstripNl s).length ≤ s.length :=
  dropWhile_len_le _ _

theorem lstripNl_cons_newline (rest : Str) : lstripNl (10 :: rest) = lstripNl rest := by
  simp [lstripNl, List.dropWhile_cons]

theorem split_loop_spec : ∀ (n : Nat) (text : Str) (fuel limit : Nat),
    text.length ≤ n → text.length < fuel → 1 ≤ limit →
    (split_loop fuel text limit).isSome = true ∧
    (∀ chunks, split_loop fuel text limit = some chunks → ∀ c ∈ chunks, c.length ≤ limit) := by
  intro n
  induction n with
  | zero =>
    intro text fuel limit hn hf hl
    have ht : text = [] := List.length_eq_zero.mp (by omega)
    subst ht
    obtain ⟨f, rfl⟩ : ∃ f, fuel = f + 1 := ⟨fuel - 1, by omega⟩
    refine ⟨by simp [split_loop], ?_⟩
    intro chunks hc c hcc
    simp [split_loop] at hc
    subst hc
    simp at hcc
  | succ m ih =>
    intro text fuel limit hn hf hl
    obtain ⟨f, rfl⟩ : ∃ f, fuel = f + 1 := ⟨fuel - 1, by omega⟩
    by_cases h0 : text.length = 0
    · have ht : text = [] := List.length_eq_zero.mp h0
      subst ht
      refine ⟨by simp [split_loop], ?_⟩
      intro chunks hc c hcc
      simp [split_loop] at hc
      subst hc
      simp at hcc
    · by_cases hle : text.length ≤ limit
      · refine ⟨by simp [split_loop, h0, hle], ?_⟩
        intro chunks hc c hcc
        simp [split_loop, h0, hle] at hc
        subst hc
        simp at hcc
        subst hcc
        exact hle
      · have hprog : (lstripNl (text.drop ((rfindNl text limit).getD limit))).length <
            text.length := by
          cases hr : rfindNl text limit with
          | none =>
            rw [Option.getD_none]
            have h1 : (text.drop limit).length < text.length := by
              rw [List.length_drop]
              omega
            have h2 := length_lstripNl_le (text.drop limit)
            omega
          | some i =>
            rw [Option.getD_some]
            have hi : i < (text.take limit).length := rfindAux_lt_length hr
            by_cases hz : i = 0
            · subst hz
              obtain ⟨rest, hrest⟩ := rfindAux_zero hr
              obtain ⟨tl, rfl⟩ : ∃ tl, text = 10 :: tl := by
                cases text with
                | nil => simp at h0
                | cons a tl =>
                  obtain ⟨lm, rfl⟩ : ∃ lm, limit = lm + 1 := ⟨limit - 1, by omega⟩
                  rw [List.take_succ_cons] at hrest
                  rw [List.cons.injEq] at hrest
                  exact ⟨tl, by rw [hrest.1]⟩
              simp only [List.drop_zero]
              rw [lstripNl_cons_newline]
              have h2 := length_lstripNl_le tl
              simp only [List.length_cons]
              omega
            · have h1 : (text.drop i).length < text.length := by
                rw [List.length_drop]
                omega
              have h2 := length_lstripNl_le (text.drop i)
              omega
        have hrec := ih (lstripNl (text.drop ((rfindNl text limit).getD limit))) f limit
          (by omega) (by omega) hl
        obtain ⟨rest, hrest⟩ : ∃ r,
            split_loop f (lstripNl (text.drop ((rfindNl text limit).getD limit))) limit =
              some r := by
          cases hx : split_loop f (lstripNl (text.drop ((rfindNl text limit).getD limit)))
              limit with
          | none =>
            have hs := hrec.1
            rw [hx] at hs
            simp at hs
          | some r => exact ⟨r, rfl⟩
        have hchunk : (text.take ((rfindNl text limit).getD limit)).length ≤ limit := by
          cases hr : rfindNl text limit with
          | none =>
            rw [Option.getD_none]
            simp [List.length_take]
          | some i =>
            rw [Option.getD_some]
            have hi : i < (text.take limit).length := rfindAux_lt_length hr
            have h2 : (text.take limit).length ≤ limit := by simp [List.length_take]
            simp only [List.length_take]
            omega
        have hstep : split_loop (f + 1) text limit =
            some (text.take ((rfindNl text limit).getD limit) :: rest) := by
          simp only [split_loop]
          rw [if_neg h0, if_neg hle, hrest]
        refine ⟨by rw [hstep]; rfl, ?_⟩
        intro chunks hc c hcc
        rw [hstep] at hc
        rw [Option.some.injEq] at hc
        subst hc
        rcases List.mem_cons.mp hcc with rfl | hcr
        · exact hchunk
        · exact hrec.2 rest hrest c hcr

/-- C10: for every input and every limit of at least one, the front end's
message splitter terminates (the Python loop's iteration count is bounded by
the text length, so the fuel `text.length + 1` is never exhausted) and every
chunk it returns has length at most the limit — including when a chunk
boundary falls on a leading newline, where the loop appends an empty chunk
and strips the newlines. -/
theorem split_message_total_and_bounded (text : Str) (limit : Nat) (h : 1 ≤ limit) :
    (split_message text limit).isSome = true ∧
    ∀ chunks, split_message text limit = some chunks → ∀ c ∈ chunks, c.length ≤ limit := by
  by_cases hle : text.length ≤ limit
  · refine ⟨by simp [split_message, hle], ?_⟩
    intro chunks hc c hcc
    simp [split_message, hle] at hc
    subst hc
    simp at hcc
    subst hcc
    exact hle
  · have hx := split_loop_spec text.length text (text.length + 1) limit (le_refl _)
      (by omega) h
    constructor
    · simp only [split_message]
      rw [if_neg hle]
      exact hx.1
    · intro chunks hc c hcc
      simp only [split_message] at hc
      rw [if_neg hle] at hc
      exact hx.2 chunks hc c hcc

/-- Witness for C10 at `text = "\nabc"` and `limit = 1`: the chunk boundary
falls on the leading newline, the splitter terminates, and (checked directly)
it returns the chunks `["", "a", "b", "c"]`, all of length at most one. -/
theorem split_message_total_and_bounded_witness :
    (1 : Nat) ≤ 1 ∧ (split_message [10, 97, 98, 99] 1).isSome = true ∧
    split_message [10, 97, 98, 99] 1 = some [[], [97], [98], [99]] :=
  ⟨by decide, (split_message_total_and_bounded [10, 97, 98, 99] 1 (by decide)).1, by decide⟩

/-! ### Facts about the agent nodes -/

/-- C5: when the Risk Judge node runs, it queries the episodic memory store
with the situation string concatenated from the four analyst reports in the
order market, sentiment, news, fundamentals (asking for two matches), and its
partial update writes both `risk_debate_state.judge_decision` and the run's
`final_trade_decision` to the judge response. -/
theorem risk_judge_memory_query_and_outputs
    (memory : String → Nat → List MemRec) (s : AgentState) (response : String) :
    (risk_manager_node memory s response).memory_query =
      (s.market_report ++ "\n\n" ++ s.sentiment_report ++ "\n\n" ++
        s.news_report ++ "\n\n" ++ s.fundamentals_report, 2) ∧
    ((risk_manager_node memory s response).update.risk_debate_state).map
      RiskDebateState.judge_decision = some response ∧
    (risk_manager_node memory s response).update.final_trade_decision = some response :=
  ⟨rfl, rfl, rfl⟩

/-- C6: the Risk Judge's returned risk debate state carries `history`,
`risky_history`, `safe_history`, `neutral_history`, the three current
responses and `count` unchanged from the input state, changing only
`judge_decision` and `latest_speaker`; the new speaker `"Judge"` lies in
the allowed speaker set. -/
theorem risk_judge_frame (memory : String → Nat → List MemRec) (s : AgentState)
    (response : String) :
    (risk_manager_node memory s response).update.risk_debate_state =
      some { s.risk_debate_state with
               judge_decision := response
               latest_speaker := "Judge" } ∧
    "Judge" ∈ (["Risky", "Safe", "Neutral", "Judge"] : List String) :=
  ⟨rfl, by simp⟩

/-- C7: for every stored collection and every query, retrieval builds one
record per match, in the order the store returned them, whose
`matched_situation` and `recommendation` come from the matched entry and whose
`similarity_score` is exactly `1 -` the stored distance for that match; and
retrieval leaves the stored collection unchanged. -/
theorem get_memories_scores_and_frame
    (query : Collection → String → Nat → MemQueryResults) (col : Collection)
    (situation : String) (n i : Nat) :
    (get_memories query col situation n).1.length =
      (query col situation n).documents.length ∧
    (get_memories query col situation n).1.getD i default =
      (if i < (query col situation n).documents.length then
        { matched_situation := (query col situation n).documents.getD i "",
          recommendation := (query col situation n).recommendations.getD i "",
          similarity_score := 1 - (query col situation n).distances.getD i 0 }
       else default) ∧
    (get_memories query col situation n).2 = col := by
  refine ⟨by simp [get_memories, build_matched_results], ?_, rfl⟩
  by_cases h : i < (query col situation n).documents.length
  · rw [if_pos h]
    simp [get_memories, build_matched_results, List.getD_eq_getElem?_getD,
      List.getElem?_map, List.getElem?_range h]
  · rw [if_neg h]
    have hnone : (List.range (query col situation n).documents.length)[i]? = none := by
      apply List.getElem?_eq_none
      simpa using Nat.le_of_not_lt h
    simp [get_memories, build_matched_results, List.getD_eq_getElem?_getD,
      List.getElem?_map, hnone]

/-- C1 (amended): for every analyst invocation whose reasoning response has
non-empty text or at least one retrieval request, the returned partial update
contains either an empty report together with at least one retrieval request
(stage not finished) or a non-empty report with no retrieval requests (stage
finished) — for each of the four analyst nodes and its own report field. -/
theorem analyst_report_dichotomy (s : AgentState) (r : LLMResult)
    (h : r.content ≠ "" ∨ r.tool_calls ≠ []) :
    analyst_dichotomy ((market_analyst_node s r).market_report.getD "") r.tool_calls ∧
    analyst_dichotomy ((social_media_analyst_node s r).sentiment_report.getD "")
      r.tool_calls ∧
    analyst_dichotomy ((news_analyst_node s r).news_report.getD "") r.tool_calls ∧
    analyst_dichotomy ((fundamentals_analyst_node s r).fundamentals_report.getD "")
      r.tool_calls := by
  have key : analyst_dichotomy (if r.tool_calls.length = 0 then r.content else "")
      r.tool_calls := by
    cases hc : r.tool_calls with
    | nil =>
      have hcontent : r.content ≠ "" := by
        rcases h with hx | hx
        · exact hx
        · rw [hc] at hx
          exact absurd rfl hx
      exact Or.inr ⟨hcontent, rfl⟩
    | cons a l =>
      rw [show (if (a :: l).length = 0 then r.content else "") = "" from
        by rw [if_neg (by simp)]]
      exact Or.inl ⟨rfl, by simp⟩
  exact ⟨key, key, key, key⟩

/-- C1 counterexample: with a reasoning response carrying empty text and no
retrieval requests (which the reasoning collaborator's contract does not rule
out), the market analyst node returns an empty report together with zero
retrieval requests — a combination the claim says never occurs. -/
theorem analyst_report_dichotomy_counterexample :
    ¬ analyst_dichotomy
        ((market_analyst_node exState
          { content := "", tool_calls := [] }).market_report.getD "")
        (LLMResult.mk "" []).tool_calls := by
  intro h
  rcases h with ⟨_, h2⟩ | ⟨h1, _⟩
  · exact h2 rfl
  · exact h1 rfl

/-- Witness for C1's amended dichotomy, at a finished-stage response with
non-empty text and no retrieval requests. -/
theorem analyst_report_dichotomy_witness :
    (("a technical report" : String) ≠ "" ∨ ([] : List ToolCall) ≠ []) ∧
    (analyst_dichotomy ((market_analyst_node exState
        { content := "a technical report", tool_calls := [] }).market_report.getD "")
        ({ content := "a technical report", tool_calls := [] } : LLMResult).tool_calls ∧
     analyst_dichotomy ((social_media_analyst_node exState
        { content := "a technical report", tool_calls := [] }).sentiment_report.getD "")
        ({ content := "a technical report", tool_calls := [] } : LLMResult).tool_calls ∧
     analyst_dichotomy ((news_analyst_node exState
        { content := "a technical report", tool_calls := [] }).news_report.getD "")
        ({ content := "a technical report", tool_calls := [] } : LLMResult).tool_calls ∧
     analyst_dichotomy ((fundamentals_analyst_node exState
        { content := "a technical report", tool_calls := [] }).fundamentals_report.getD "")
        ({ content := "a technical report", tool_calls := [] } : LLMResult).tool_calls) :=
  ⟨Or.inl (by decide),
    analyst_report_dichotomy exState
      { content := "a technical report", tool_calls := [] } (Or.inl (by decide))⟩

theorem step_preserves_market_report {s s' : AgentState} (h : Step s s')
    (hne : s.market_report ≠ "") : s'.market_report = s.market_report := by
  cases h
  case market r hr => exact absurd hr hne
  all_goals rfl

/-- C2: along any controller run (the controller re-invokes an analyst stage
only while that stage's report is still empty), once `market_report` is
non-empty no later stage invocation changes its value; moreover each analyst's
partial update carries exactly its own report key, and no other node's partial
update carries any report key at all. -/
theorem market_report_write_once :
    (∀ s s' : AgentState, Relation.ReflTransGen Step s s' → s.market_report ≠ "" →
      s'.market_report = s.market_report) ∧
    (∀ (s : AgentState) (r : LLMResult),
      touches_only_market (market_analyst_node s r)) ∧
    (∀ (s : AgentState) (r : LLMResult),
      touches_only_sentiment (social_media_analyst_node s r)) ∧
    (∀ (s : AgentState) (r : LLMResult),
      touches_only_news (news_analyst_node s r)) ∧
    (∀ (s : AgentState) (r : LLMResult),
      touches_only_fundamentals (fundamentals_analyst_node s r)) ∧
    (∀ (ids : InvestDebateState) (m : LLMResult),
      touches_no_reports (bull_researcher_update ids m)) ∧
    (∀ (ids : InvestDebateState) (m : LLMResult),
      touches_no_reports (bear_researcher_update ids m)) ∧
    (∀ (ids : InvestDebateState) (plan : String) (m : LLMResult),
      touches_no_reports (research_manager_update ids plan m)) ∧
    (∀ (plan : String) (m : LLMResult), touches_no_reports (trader_update plan m)) ∧
    (∀ (rds : RiskDebateState) (m : LLMResult),
      touches_no_reports (risky_debator_update rds m)) ∧
    (∀ (rds : RiskDebateState) (m : LLMResult),
      touches_no_reports (safe_debator_update rds m)) ∧
    (∀ (rds : RiskDebateState) (m : LLMResult),
      touches_no_reports (neutral_debator_update rds m)) ∧
    (∀ (msgs : List LLMResult), touches_no_reports (tool_node_update msgs)) ∧
    (∀ (memory : String → Nat → List MemRec) (s : AgentState) (response : String),
      touches_no_reports (risk_manager_node memory s response).update) := by
  refine ⟨?_, ?_, ?_, ?_, ?_, ?_, ?_, ?_, ?_, ?_, ?_, ?_, ?_, ?_⟩
  · intro s s' hstar hne
    induction hstar with
    | refl => rfl
    | tail hab hbc ih =>
      rw [step_preserves_market_report hbc (by rw [ih]; exact hne), ih]
  · intro s r
    exact ⟨by simp [market_analyst_node], rfl, rfl, rfl⟩
  · intro s r
    exact ⟨rfl, by simp [social_media_analyst_node], rfl, rfl⟩
  · intro s r
    exact ⟨rfl, rfl, by simp [news_analyst_node], rfl⟩
  · intro s r
    exact ⟨rfl, rfl, rfl, by simp [fundamentals_analyst_node]⟩
  · intro ids m
    exact ⟨rfl, rfl, rfl, rfl⟩
  · intro ids m
    exact ⟨rfl, rfl, rfl, rfl⟩
  · intro ids plan m
    exact ⟨rfl, rfl, rfl, rfl⟩
  · intro plan m
    exact ⟨rfl, rfl, rfl, rfl⟩
  · intro rds m
    exact ⟨rfl, rfl, rfl, rfl⟩
  · intro rds m
    exact ⟨rfl, rfl, rfl, rfl⟩
  · intro rds m
    exact ⟨rfl, rfl, rfl, rfl⟩
  · intro msgs
    exact ⟨rfl, rfl, rfl, rfl⟩
  · intro memory s response
    exact ⟨rfl, rfl, rfl, rfl⟩

/-- Witness for C2: a concrete stage invocation (a bull-researcher turn) from
a state with a non-empty market report leaves the report unchanged. -/
theorem market_report_write_once_witness :
    exState.market_report ≠ "" ∧
    (applyUpdate exState (bull_researcher_update exIds exMsg)).market_report =
      exState.market_report :=
  ⟨by decide, market_report_write_once.1 exState _
    (Relation.ReflTransGen.single (Step.bull exState exIds exMsg)) (by decide)⟩

/-- C8 at its failing input: for a fresh session (chat 7), when the
"Starting analysis..." reply raises after the in-flight flag was set — before
the `try/finally` that releases it is entered — the handler exits with the
flag still set and no run started, and a subsequent well-behaved request for
that chat is rejected with the "already running" reply without starting a run:
the in-flight flag is not released on this exit path. -/
theorem handle_message_flag_leak :
    (handle_message [] 7 true true
      { start_reply_raises := true, run_raises := false,
        report_reply_raises := false, error_reply_raises := false }).running = [7] ∧
    (handle_message [] 7 true true
      { start_reply_raises := true, run_raises := false,
        report_reply_raises := false, error_reply_raises := false }).raised = true ∧
    (handle_message [] 7 true true
      { start_reply_raises := true, run_raises := false,
        report_reply_raises := false, error_reply_raises := false }).run_started = false ∧
    (handle_message [7] 7 true true
      { start_reply_raises := false, run_raises := false,
        report_reply_raises := false, error_reply_raises := false }).replies =
      ["already_running"] ∧
    (handle_message [7] 7 true true
      { start_reply_raises := false, run_raises := false,
        report_reply_raises := false, error_reply_raises := false }).run_started =
      false := by
  decide

end TradingAgents
